import Mathlib

set_option maxRecDepth 8000

/-!
Verification of the two maintenance scripts of the VTT repository:
the grid-snap patcher (`scripts/utilities/fix-grid-snapping.py`) and the
ESM import fixer (`scripts/utilities/fix_esm_imports.py`).

Text is modelled as `List Char`.  Both regex patterns of the grid patcher
consist solely of escaped metacharacters, so `re.sub` with them is literal
string replacement; it is embedded as `substAllF` (leftmost,
non-overlapping, fuelled recursion).  The import fixer's per-match
callbacks are embedded directly, with a file's text represented by its
match decomposition (`Tok`), the filesystem by an oracle (`FS`), and
per-file I/O failures by `Option` error fields.
-/

/-- Does `pat` occur as a contiguous substring of `s`?  This mirrors a
regex search for a fully escaped (literal) pattern. -/
def occursIn (pat : List Char) : List Char → Bool
  | [] => pat.isEmpty
  | c :: rest => pat.isPrefixOf (c :: rest) || occursIn pat rest

/-- Replace every leftmost, non-overlapping occurrence of `pat` in the text
by `rep`, as Python's `re.sub` does for a fully escaped (literal) pattern.
`fuel` bounds the recursion; `substAll` supplies the text's length, which
is always enough when `pat` is nonempty. -/
def substAllF (pat rep : List Char) : Nat → List Char → List Char
  | 0, s => s
  | _ + 1, [] => []
  | fuel + 1, c :: rest =>
    if pat.isPrefixOf (c :: rest) then
      rep ++ substAllF pat rep fuel (List.drop pat.length (c :: rest))
    else
      c :: substAllF pat rep fuel rest

/-- `re.sub` with a literal pattern: replace all leftmost non-overlapping
occurrences of `pat` by `rep`. -/
def substAll (pat rep s : List Char) : List Char :=
  substAllF pat rep s.length s

/-- Is some nonempty suffix of `rep` a proper prefix of `pat`?  When this is
false, no occurrence of `pat` can begin strictly inside an inserted copy of
`rep` and spill past its end. -/
def tailHeadOverlap (pat rep : List Char) : Bool :=
  rep.tails.any (fun u => u.isPrefixOf pat && !u.isEmpty && !(u == pat))

/-- Is some nonempty proper suffix of `pat` a prefix of `rep`?  When this is
false, no occurrence of `pat` can start before an inserted copy of `rep`
and end inside it. -/
def headTailOverlap (pat rep : List Char) : Bool :=
  pat.tails.any (fun u => u.isPrefixOf rep && !u.isEmpty && !(u == pat))

def snapPatS : String :=
  "  function snapToGrid(x: number, y: number): \x7b x: number; y: number \x7d \x7b\n    if (!gridSnap) return \x7b x, y \x7d;\n    const gridSize = scene.gridSize ?? 100;\n    const cellWidth = scene.gridWidth ?? gridSize;\n    const cellHeight = scene.gridHeight ?? gridSize;\n    return \x7b\n      x: Math.round(x / cellWidth) * cellWidth,\n      y: Math.round(y / cellHeight) * cellHeight,\n    \x7d;\n  \x7d"

def snapRepS : String :=
  "  function snapToGrid(x: number, y: number): \x7b x: number; y: number \x7d \x7b\n    if (!gridSnap) return \x7b x, y \x7d;\n    const gridSize = scene.gridSize ?? 100;\n    const cellWidth = scene.gridWidth ?? gridSize;\n    const cellHeight = scene.gridHeight ?? gridSize;\n    const offsetX = scene.gridOffsetX ?? 0;\n    const offsetY = scene.gridOffsetY ?? 0;\n    return \x7b\n      x: Math.round((x - offsetX) / cellWidth) * cellWidth + offsetX,\n      y: Math.round((y - offsetY) / cellHeight) * cellHeight + offsetY,\n    \x7d;\n  \x7d"

def centerPatS : String :=
  "  function snapToGridCenter(x: number, y: number): \x7b x: number; y: number \x7d \x7b\n    const gridSize = scene.gridSize ?? 100;\n    const cellWidth = scene.gridWidth ?? gridSize;\n    const cellHeight = scene.gridHeight ?? gridSize;\n    // Snap to center of cell (add half grid size after rounding to corner)\n    return \x7b\n      x: Math.floor(x / cellWidth) * cellWidth + cellWidth / 2,\n      y: Math.floor(y / cellHeight) * cellHeight + cellHeight / 2,\n    \x7d;\n  \x7d"

def centerRepS : String :=
  "  function snapToGridCenter(x: number, y: number): \x7b x: number; y: number \x7d \x7b\n    const gridSize = scene.gridSize ?? 100;\n    const cellWidth = scene.gridWidth ?? gridSize;\n    const cellHeight = scene.gridHeight ?? gridSize;\n    const offsetX = scene.gridOffsetX ?? 0;\n    const offsetY = scene.gridOffsetY ?? 0;\n    // Snap to center of cell (add half grid size after rounding to corner)\n    return \x7b\n      x: Math.floor((x - offsetX) / cellWidth) * cellWidth + cellWidth / 2 + offsetX,\n      y: Math.floor((y - offsetY) / cellHeight) * cellHeight + cellHeight / 2 + offsetY,\n    \x7d;\n  \x7d"

def snapPatL : List Char := snapPatS.toList

def snapRepL : List Char := snapRepS.toList

def centerPatL : List Char := centerPatS.toList

def centerRepL : List Char := centerRepS.toList

/-- The whole text transformation of the grid-snap patcher: the two
`re.sub` calls, `snapToGrid` first, then `snapToGridCenter` on the result
(`fix-grid-snapping.py`, lines 63-65). -/
def grid_transform (c : List Char) : List Char :=
  substAll centerPatL centerRepL (substAll snapPatL snapRepL c)

/-- Outcome of one run of the grid-snap patcher on file content that was
read successfully: the content on disk afterwards, whether the file was
written, and whether the non-match diagnostic branch was taken. -/
structure GridResult where
  output : List Char
  wrote : Bool
  diagnostic : Bool
deriving DecidableEq

/-- The change check and conditional write of `fix-grid-snapping.py`
(lines 67-83): if the two substitutions left the content unchanged, print
the non-match diagnostic and do not write; otherwise write the updated
content back. -/
def grid_run (c : List Char) : GridResult :=
  if grid_transform c == c then ⟨c, false, true⟩
  else ⟨grid_transform c, true, false⟩

/-- The whole script including its unguarded I/O: the read (line 10) and
the write (line 81) are not wrapped in any handler, so a failing one
propagates as an uncaught exception (`Except.error`), which makes the
interpreter terminate with a nonzero status. -/
def grid_script (readRes : Except (List Char) (List Char))
    (writeRes : Except (List Char) Unit) : Except (List Char) GridResult :=
  match readRes with
  | .error e => .error e
  | .ok c =>
    if grid_transform c == c then .ok ⟨c, false, true⟩
    else
      match writeRes with
      | .error e => .error e
      | .ok _ => .ok ⟨grid_transform c, true, false⟩

/-- Process exit status of a Python run: normal termination of this script
exits 0, an uncaught exception exits 1. -/
def exit_code_of : Except (List Char) GridResult → Nat
  | .error _ => 1
  | .ok _ => 0

/-- Filesystem oracle for the import fixer: `resolved_path.is_dir()` and
`index_ts.exists()` queries of `add_js_extension`
(`fix_esm_imports.py`, lines 31-36). -/
structure FS where
  isDir : List Char → Bool
  pathExists : List Char → Bool

/-- Split a POSIX path into its `/`-separated segments. -/
def splitOnSlash : List Char → List (List Char)
  | [] => [[]]
  | c :: rest =>
    if c = '/' then [] :: splitOnSlash rest
    else
      match splitOnSlash rest with
      | [] => [[c]]
      | seg :: rs => (c :: seg) :: rs

/-- Lexical normalisation of path segments: empty segments and `.` are
dropped, `..` pops the previous segment (and is a no-op at the root), as
`pathlib` construction plus `Path.resolve()` do for symlink-free paths. -/
def normSegs (segs : List (List Char)) : List (List Char) :=
  segs.foldl
    (fun acc seg =>
      if seg = [] then acc
      else if seg = ['.'] then acc
      else if seg = ['.', '.'] then acc.dropLast
      else acc ++ [seg])
    []

/-- `(file_dir / import_path).resolve()` of `fix_esm_imports.py` line 30,
for an absolute `file_dir` on a symlink-free POSIX filesystem. -/
def resolvePath (dir p : List Char) : List Char :=
  '/' :: List.intercalate ['/'] (normSegs (splitOnSlash dir ++ splitOnSlash p))

/-- `needs_js_extension` of `fix_esm_imports.py` (lines 12-22): an import
path needs the extension unless it already ends in `.js` or is not
relative (does not start with `./` or `../`). -/
def needs_js_extension (p : List Char) : Bool :=
  if (".js").toList.isSuffixOf p then false
  else if !((("./").toList.isPrefixOf p) || (("../").toList.isPrefixOf p)) then false
  else true

/-- `add_js_extension` of `fix_esm_imports.py` (lines 24-43): resolve the
path against the importing file's directory; a directory with an
`index.ts` gets `/index.js` (or just `.js` when the specifier already ends
in `/index`); everything else gets `.js` appended. -/
def add_js_extension (fs : FS) (file_dir p : List Char) : List Char :=
  if !(needs_js_extension p) then p
  else
    let resolved := resolvePath file_dir p
    if fs.isDir resolved then
      if fs.pathExists (resolved ++ '/' :: ("index.ts").toList) then
        if ("/index").toList.isSuffixOf p then p ++ (".js").toList
        else p ++ ("/index.js").toList
      else p ++ (".js").toList
    else p ++ (".js").toList

/-- One maximal piece of a file's text under the two regex passes of
`fix_esm_imports.py`: text neither pattern matches (`raw`), a match of
pattern 1 (`stat`: the statement prefix group, opening quote, path group,
closing quote), or a match of pattern 2 (`dyn`: opening quote, path group,
closing quote of an `import(...)` call). -/
inductive Tok where
  | raw : List Char → Tok
  | stat : List Char → Char → List Char → Char → Tok
  | dyn : Char → List Char → Char → Tok
deriving DecidableEq

/-- The text a token stands for (for a match token, `match.group(0)`). -/
def Tok.render : Tok → List Char
  | .raw s => s
  | .stat pre q p q2 => pre ++ q :: (p ++ [q2])
  | .dyn q p q2 => ("import(").toList ++ q :: (p ++ q2 :: [')'])

/-- The text of a whole token list. -/
def renderToks (ts : List Tok) : List Char :=
  (ts.map Tok.render).flatten

/-- `replace_import_export` of `fix_esm_imports.py` (lines 67-81): on a
pattern-1 match, if the path needs the extension, emit the prefix group,
the opening quote, the rewritten path and the opening quote again, and
count one change; otherwise emit `match.group(0)` unchanged. -/
def applyStat (fs : FS) (dir : List Char) : Tok → Tok × Nat
  | .stat pre q p q2 =>
    if needs_js_extension p then
      (.raw (pre ++ q :: (add_js_extension fs dir p ++ [q])), 1)
    else (.stat pre q p q2, 0)
  | t => (t, 0)

/-- `replace_dynamic_import` of `fix_esm_imports.py` (lines 84-93): on a
pattern-2 match, if the path needs the extension, emit
`import(<quote><new path><quote>)` with the opening quote, and count one
change; otherwise emit `match.group(0)` unchanged. -/
def applyDyn (fs : FS) (dir : List Char) : Tok → Tok × Nat
  | .dyn q p q2 =>
    if needs_js_extension p then
      (.raw (("import(").toList ++ q :: (add_js_extension fs dir p ++ q :: [')'])), 1)
    else (.dyn q p q2, 0)
  | t => (t, 0)

/-- The first `re.sub` pass (pattern 1) over a file's match decomposition,
with the number of substitutions the callback counted. -/
def passStat (fs : FS) (dir : List Char) (ts : List Tok) : List Tok × Nat :=
  (ts.map (fun t => (applyStat fs dir t).1), (ts.map (fun t => (applyStat fs dir t).2)).sum)

/-- The second `re.sub` pass (pattern 2), likewise. -/
def passDyn (fs : FS) (dir : List Char) (ts : List Tok) : List Tok × Nat :=
  (ts.map (fun t => (applyDyn fs dir t).1), (ts.map (fun t => (applyDyn fs dir t).2)).sum)

/-- Both passes in the order the script runs them, and the final value of
the shared `changes` counter. -/
def processToks (fs : FS) (dir : List Char) (ts : List Tok) : List Tok × Nat :=
  let r1 := passStat fs dir ts
  let r2 := passDyn fs dir r1.1
  (r2.1, r1.2 + r2.2)

/-- One TypeScript file as the import fixer sees it: its path (for log
messages), its parent directory (for resolution), its content's match
decomposition, and the outcome of the read and of a write attempt (`some
msg` = that I/O call raises an exception carrying `msg`). -/
structure SrcFile where
  path : List Char
  dir : List Char
  toks : List Tok
  readErr : Option (List Char)
  writeErr : Option (List Char)
deriving DecidableEq

/-- What `fix_imports_in_file` did to one file: the returned pair
`(was_modified, num_changes)`, the error lines it printed, and whether the
write branch was entered (the file was opened for writing). -/
structure FileResult where
  modified : Bool
  changes : Nat
  log : List (List Char)
  written : Bool
deriving DecidableEq

/-- The message `print(f'Error reading {file_path}: {e}')` builds. -/
def readErrMsg (path e : List Char) : List Char :=
  ("Error reading ").toList ++ path ++ (": ").toList ++ e

/-- The message `print(f'Error writing {file_path}: {e}')` builds. -/
def writeErrMsg (path e : List Char) : List Char :=
  ("Error writing ").toList ++ path ++ (": ").toList ++ e

/-- `fix_imports_in_file` of `fix_esm_imports.py` (lines 45-108): a failing
read is caught, logged and reported as `(False, 0)`; then both passes run;
the file is written back only when the content changed, a failing write
being caught, logged and reported as `(False, 0)` as well. -/
def fix_imports_in_file (fs : FS) (f : SrcFile) : FileResult :=
  match f.readErr with
  | some e => ⟨false, 0, [readErrMsg f.path e], false⟩
  | none =>
    let r := processToks fs f.dir f.toks
    if renderToks r.1 = renderToks f.toks then ⟨false, 0, [], false⟩
    else
      match f.writeErr with
      | some e => ⟨false, 0, [writeErrMsg f.path e], true⟩
      | none => ⟨true, r.2, [], true⟩

/-- `fix_imports_in_directory` of `fix_esm_imports.py` (lines 110-131):
fold over the files, counting modified files and summing their change
counts. -/
def fix_imports_in_directory (fs : FS) (files : List SrcFile) : Nat × Nat :=
  files.foldl
    (fun acc f =>
      let r := fix_imports_in_file fs f
      if r.modified then (acc.1 + 1, acc.2 + r.changes) else acc)
    (0, 0)

/-- `main` of `fix_esm_imports.py` (lines 133-168): each configured
directory is `none` (does not exist, warned and skipped) or `some files`;
the totals are accumulated and the return value is 0 when at least one
file was modified, 1 otherwise. -/
def main_model (fs : FS) (dirs : List (Option (List SrcFile))) : Nat :=
  let t := dirs.foldl
    (fun acc d =>
      match d with
      | none => acc
      | some files =>
        let r := fix_imports_in_directory fs files
        (acc.1 + r.1, acc.2 + r.2))
    ((0 : Nat), (0 : Nat))
  if t.1 > 0 then 0 else 1

/-- Is a token a pattern-1 match whose path the classifier rewrites? -/
def statRewritable : Tok → Bool
  | .stat _ _ p _ => needs_js_extension p
  | _ => false

/-- Is a token a pattern-2 match whose path the classifier rewrites? -/
def dynRewritable : Tok → Bool
  | .dyn _ p _ => needs_js_extension p
  | _ => false

/-- Is a token a match (of either pattern) whose path the classifier
rewrites? -/
def rewritableTok (t : Tok) : Bool :=
  statRewritable t || dynRewritable t

/-- How many rewritable specifiers a file's decomposition contains. -/
def countRewritable (ts : List Tok) : Nat :=
  ts.countP rewritableTok

/-- A small concrete filesystem: `/src/foo` is a directory and
`/src/foo/index.ts` exists. -/
def exampleFS : FS :=
  ⟨fun q => q == ("/src/foo").toList, fun q => q == ("/src/foo/index.ts").toList⟩


/-- The offset-default line of both patched functions. -/
def offXLineL : List Char := ("const offsetX = scene.gridOffsetX ?? 0;").toList

/-- The offset-default line of both patched functions (y axis). -/
def offYLineL : List Char := ("const offsetY = scene.gridOffsetY ?? 0;").toList

/-- The cell-width default line (defaults to the scene grid size). -/
def cellWLineL : List Char := ("const cellWidth = scene.gridWidth ?? gridSize;").toList

/-- The cell-height default line (defaults to the scene grid size). -/
def cellHLineL : List Char := ("const cellHeight = scene.gridHeight ?? gridSize;").toList

/-- The patched x computation of `snapToGrid`: offset subtracted before the
round, re-added after. -/
def roundXLineL : List Char :=
  ("Math.round((x - offsetX) / cellWidth) * cellWidth + offsetX").toList

/-- The patched y computation of `snapToGrid`. -/
def roundYLineL : List Char :=
  ("Math.round((y - offsetY) / cellHeight) * cellHeight + offsetY").toList

/-- The patched x computation of `snapToGridCenter`: offset subtracted
before the floor, re-added after the half-cell shift. -/
def floorXLineL : List Char :=
  ("Math.floor((x - offsetX) / cellWidth) * cellWidth + cellWidth / 2 + offsetX").toList

/-- The patched y computation of `snapToGridCenter`. -/
def floorYLineL : List Char :=
  ("Math.floor((y - offsetY) / cellHeight) * cellHeight + cellHeight / 2 + offsetY").toList


/-- A file on which both I/O calls succeed. -/
def cleanFile (f : SrcFile) : Bool :=
  f.readErr.isNone && f.writeErr.isNone

/-- How many files of a configured directory end up modified (contain at
least one rewritable specifier); a missing directory contributes 0. -/
def dirCount : Option (List SrcFile) → Nat
  | none => 0
  | some files => files.countP (fun f => countRewritable f.toks != 0)

/-- A clean file whose single static import specifier is rewritable. -/
def exampleStatFile : SrcFile :=
  ⟨("a.ts").toList, ("/src").toList,
    [Tok.stat (("import x from ").toList) '\'' (("./bar").toList) '\''], none, none⟩

/-- A clean file containing no import at all. -/
def exampleRawFile : SrcFile :=
  ⟨("b.ts").toList, ("/src").toList, [Tok.raw (("const y = 1;").toList)], none, none⟩


/-- The change total a configured directory contributes; a missing
directory contributes 0. -/
def dirTotal : Option (List SrcFile) → Nat
  | none => 0
  | some files => (files.map (fun f => countRewritable f.toks)).sum

theorem occursIn_nil (pat : List Char) : occursIn pat [] = pat.isEmpty := rfl

theorem occursIn_cons (pat : List Char) (c : Char) (rest : List Char) :
    occursIn pat (c :: rest) = (pat.isPrefixOf (c :: rest) || occursIn pat rest) := rfl

theorem occursIn_of_lead (pat s : List Char) (hp : pat ≠ []) (h : pat <+: s) :
    occursIn pat s = true := by
  cases s with
  | nil => exact absurd (List.prefix_nil.mp h) hp
  | cons c rest =>
    rw [occursIn_cons, Bool.or_eq_true]
    exact Or.inl (by simpa using h)

theorem occursIn_append_right (pat b c : List Char) (h : occursIn pat b = true) :
    occursIn pat (b ++ c) = true := by
  induction b with
  | nil =>
    rw [occursIn_nil, List.isEmpty_iff] at h
    subst h
    cases c with
    | nil => rfl
    | cons x xs => rw [List.nil_append, occursIn_cons]; simp
  | cons x xs ih =>
    rw [occursIn_cons, Bool.or_eq_true] at h
    rw [List.cons_append, occursIn_cons, Bool.or_eq_true]
    rcases h with h | h
    · exact Or.inl (by
        rw [ List.isPrefixOf_iff_prefix] at h ⊢
        exact h.trans (List.prefix_append (x :: xs) c))
    · exact Or.inr (ih h)

theorem occursIn_append_left (pat a b : List Char) (h : occursIn pat b = true) :
    occursIn pat (a ++ b) = true := by
  induction a with
  | nil => simpa using h
  | cons x xs ih => rw [List.cons_append, occursIn_cons, ih]; simp

theorem occursIn_of_suffix_occ (pat u v : List Char) (hs : u <:+ v)
    (h : occursIn pat u = true) : occursIn pat v = true := by
  obtain ⟨w, rfl⟩ := hs
  exact occursIn_append_left pat w u h

theorem occursIn_append_split (pat a T : List Char) (h : occursIn pat (a ++ T) = true) :
    (∃ u, u ∈ a.tails ∧ u ≠ [] ∧ pat.isPrefixOf (u ++ T) = true) ∨ occursIn pat T = true := by
  induction a with
  | nil => exact Or.inr (by simpa using h)
  | cons x xs ih =>
    rw [List.cons_append, occursIn_cons, Bool.or_eq_true] at h
    rcases h with h | h
    · exact Or.inl ⟨x :: xs, (List.mem_tails _ _).mpr List.suffix_rfl, by simp, h⟩
    · rcases ih h with ⟨u, hu, hne, hpre⟩ | h
      · refine Or.inl ⟨u, (List.mem_tails _ _).mpr ?_, hne, hpre⟩
        exact ((List.mem_tails _ _).mp hu).trans (List.suffix_cons x xs)
      · exact Or.inr h

theorem substAllF_zero (pat rep s : List Char) : substAllF pat rep 0 s = s := rfl

theorem substAllF_succ_nil (pat rep : List Char) (f : Nat) :
    substAllF pat rep (f + 1) [] = [] := rfl

theorem substAllF_succ_cons (pat rep : List Char) (f : Nat) (c : Char) (rest : List Char) :
    substAllF pat rep (f + 1) (c :: rest) =
      if pat.isPrefixOf (c :: rest) then
        rep ++ substAllF pat rep f (List.drop pat.length (c :: rest))
      else
        c :: substAllF pat rep f rest := rfl

theorem substAllF_fuel_eq (pat rep : List Char) (hp : pat ≠ []) :
    ∀ (n f g : Nat) (s : List Char), s.length ≤ n → s.length ≤ f → s.length ≤ g →
      substAllF pat rep f s = substAllF pat rep g s := by
  intro n
  induction n with
  | zero =>
    intro f g s hn _ _
    have hs : s = [] := List.eq_nil_of_length_eq_zero (Nat.le_zero.mp hn)
    subst hs
    cases f <;> cases g <;> rfl
  | succ n ih =>
    intro f g s hn hf hg
    cases s with
    | nil => cases f <;> cases g <;> rfl
    | cons c rest =>
      have hlc : (c :: rest).length = rest.length + 1 := rfl
      cases f with
      | zero => exact absurd (hlc ▸ hf) (by omega)
      | succ f =>
        cases g with
        | zero => exact absurd (hlc ▸ hg) (by omega)
        | succ g =>
          rw [substAllF_succ_cons, substAllF_succ_cons]
          by_cases hpre : pat.isPrefixOf (c :: rest) = true
          · rw [if_pos hpre, if_pos hpre]
            have hplen : 1 ≤ pat.length := by
              cases hq : pat with
              | nil => exact absurd hq hp
              | cons y ys => simp [hq]
            have hdroplen : (List.drop pat.length (c :: rest)).length ≤ rest.length := by
              rw [List.length_drop]
              omega
            have h1 : (List.drop pat.length (c :: rest)).length ≤ n := by
              rw [hlc] at hn; omega
            have h2 : (List.drop pat.length (c :: rest)).length ≤ f := by
              rw [hlc] at hf; omega
            have h3 : (List.drop pat.length (c :: rest)).length ≤ g := by
              rw [hlc] at hg; omega
            rw [ih f g _ h1 h2 h3]
          · rw [if_neg hpre, if_neg hpre]
            have h1 : rest.length ≤ n := by rw [hlc] at hn; omega
            have h2 : rest.length ≤ f := by rw [hlc] at hf; omega
            have h3 : rest.length ≤ g := by rw [hlc] at hg; omega
            rw [ih f g rest h1 h2 h3]

theorem substAll_eq_substAllF (pat rep : List Char) (hp : pat ≠ []) (f : Nat) (s : List Char)
    (hf : s.length ≤ f) : substAll pat rep s = substAllF pat rep f s :=
  substAllF_fuel_eq pat rep hp s.length s.length f s le_rfl le_rfl hf

theorem substAllF_id_of_no_occ (pat rep : List Char) :
    ∀ (f : Nat) (s : List Char), occursIn pat s = false → substAllF pat rep f s = s := by
  intro f
  induction f with
  | zero => intro s _; rfl
  | succ f ih =>
    intro s h
    cases s with
    | nil => rfl
    | cons c rest =>
      rw [occursIn_cons, Bool.or_eq_false_iff] at h
      rw [substAllF_succ_cons, if_neg (by rw [h.1]; exact Bool.false_ne_true), ih rest h.2]

theorem substAll_id_of_no_occ (pat rep s : List Char) (h : occursIn pat s = false) :
    substAll pat rep s = s :=
  substAllF_id_of_no_occ pat rep s.length s h

theorem not_headTail (pat rep : List Char) (h : headTailOverlap pat rep = false)
    (k : Nat) (hk1 : 1 ≤ k) (hk2 : k < pat.length) : ¬ (pat.drop k <+: rep) := by
  intro hpre
  have hmem : pat.drop k ∈ pat.tails := (List.mem_tails _ _).mpr (List.drop_suffix k pat)
  have hne : pat.drop k ≠ [] := by
    intro he
    have := congrArg List.length he
    rw [List.length_drop] at this
    simp at this
    omega
  have hnep : pat.drop k ≠ pat := by
    intro he
    have := congrArg List.length he
    rw [List.length_drop] at this
    omega
  have hy : headTailOverlap pat rep = true := by
    unfold headTailOverlap
    rw [List.any_eq_true]
    refine ⟨pat.drop k, hmem, ?_⟩
    rw [Bool.and_eq_true, Bool.and_eq_true]
    refine ⟨⟨by rw [ List.isPrefixOf_iff_prefix]; exact hpre, ?_⟩, ?_⟩
    · simp [hne]
    · simp [hnep]
  rw [h] at hy
  exact Bool.false_ne_true hy

theorem not_tailHead (pat rep : List Char) (h : tailHeadOverlap pat rep = false)
    (u : List Char) (hs : u <:+ rep) (hne : u ≠ []) (hpre : u <+: pat) (hnep : u ≠ pat) :
    False := by
  have hy : tailHeadOverlap pat rep = true := by
    unfold tailHeadOverlap
    rw [List.any_eq_true]
    refine ⟨u, (List.mem_tails _ _).mpr hs, ?_⟩
    rw [Bool.and_eq_true, Bool.and_eq_true]
    refine ⟨⟨by rw [ List.isPrefixOf_iff_prefix]; exact hpre, ?_⟩, ?_⟩
    · simp [hne]
    · simp [hnep]
  rw [h] at hy
  exact Bool.false_ne_true hy

theorem substAllF_lead_track (P Q R : List Char) (hP : P ≠ [])
    (hlen : P.length ≤ R.length) (h1 : occursIn P R = false)
    (h3 : headTailOverlap P R = false) :
    ∀ (f : Nat) (s : List Char) (k : Nat), s.length ≤ f → k < P.length →
      P.drop k <+: substAllF Q R f s → P.drop k <+: s := by
  intro f
  induction f with
  | zero => intro s k _ _ hpre; exact hpre
  | succ f ih =>
    intro s k hsf hk hpre
    cases s with
    | nil =>
      rw [substAllF_succ_nil] at hpre
      have := List.prefix_nil.mp hpre
      have hl := congrArg List.length this
      rw [List.length_drop] at hl
      simp at hl
      omega
    | cons c rest =>
      have hrf : rest.length ≤ f := by
        rw [List.length_cons] at hsf; omega
      rw [substAllF_succ_cons] at hpre
      by_cases hq : Q.isPrefixOf (c :: rest) = true
      · rw [if_pos hq] at hpre
        have hdl : (P.drop k).length ≤ R.length := by
          rw [List.length_drop]; omega
        have hpr : P.drop k <+: R :=
          List.prefix_of_prefix_length_le hpre (List.prefix_append R _) hdl
        exfalso
        cases k with
        | zero =>
          rw [List.drop_zero] at hpr
          have := occursIn_of_lead P R hP hpr
          rw [h1] at this
          exact Bool.false_ne_true this
        | succ j =>
          exact not_headTail P R h3 (j + 1) (by omega) hk hpr
      · rw [if_neg hq] at hpre
        have hne : P.drop k ≠ [] := by
          intro he
          have := congrArg List.length he
          rw [List.length_drop] at this
          simp at this
          omega
        obtain ⟨x, xs, hx⟩ := List.exists_cons_of_ne_nil hne
        have hxs : xs = P.drop (k + 1) := by
          have ht := List.tail_drop P k
          rw [hx] at ht
          simpa using ht
        rw [hx, List.cons_prefix_cons] at hpre
        obtain ⟨hxc, hxT⟩ := hpre
        by_cases hk1 : k + 1 < P.length
        · have hrec : P.drop (k + 1) <+: rest :=
            ih rest (k + 1) hrf hk1 (hxs ▸ hxT)
          rw [hx, hxc, List.cons_prefix_cons]
          exact ⟨rfl, hxs ▸ hrec⟩
        · have hxs0 : xs = [] := by
            apply List.eq_nil_of_length_eq_zero
            rw [hxs, List.length_drop]
            omega
          rw [hx, hxc, hxs0, List.cons_prefix_cons]
          exact ⟨rfl, List.nil_prefix⟩

theorem no_occ_boundary (P R T : List Char) (hP : P ≠ [])
    (h1 : occursIn P R = false) (h2 : tailHeadOverlap P R = false)
    (hT : occursIn P T = false) : occursIn P (R ++ T) = false := by
  by_contra h
  rw [Bool.not_eq_false] at h
  rcases occursIn_append_split P R T h with ⟨u, hu, hne, hpre⟩ | h
  · rw [ List.isPrefixOf_iff_prefix] at hpre
    by_cases hul : P.length ≤ u.length
    · have hPu : P <+: u := List.prefix_of_prefix_length_le hpre (List.prefix_append u T) hul
      have ho : occursIn P u = true := occursIn_of_lead P u hP hPu
      have hoR : occursIn P R = true :=
        occursIn_of_suffix_occ P u R ((List.mem_tails _ _).mp hu) ho
      rw [h1] at hoR
      exact Bool.false_ne_true hoR
    · push_neg at hul
      have huP : u <+: P :=
        List.prefix_of_prefix_length_le (List.prefix_append u T) hpre (le_of_lt hul)
      have hnep : u ≠ P := by
        intro he
        rw [he] at hul
        omega
      exact not_tailHead P R h2 u ((List.mem_tails _ _).mp hu) hne huP hnep
  · rw [hT] at h
    exact Bool.false_ne_true h

theorem substAllF_no_self_occ (pat rep : List Char) (hp : pat ≠ [])
    (hlen : pat.length ≤ rep.length) (h1 : occursIn pat rep = false)
    (h2 : tailHeadOverlap pat rep = false) (h3 : headTailOverlap pat rep = false) :
    ∀ (f : Nat) (s : List Char), s.length ≤ f →
      occursIn pat (substAllF pat rep f s) = false := by
  intro f
  induction f with
  | zero =>
    intro s hs
    have : s = [] := List.eq_nil_of_length_eq_zero (Nat.le_zero.mp hs)
    subst this
    rw [substAllF_zero, occursIn_nil]
    simp [hp]
  | succ f ih =>
    intro s hs
    cases s with
    | nil =>
      rw [substAllF_succ_nil, occursIn_nil]
      simp [hp]
    | cons c rest =>
      have hrf : rest.length ≤ f := by rw [List.length_cons] at hs; omega
      have hplen : 1 ≤ pat.length := List.length_pos.mpr hp
      rw [substAllF_succ_cons]
      by_cases hpre : pat.isPrefixOf (c :: rest) = true
      · rw [if_pos hpre]
        have hdf : (List.drop pat.length (c :: rest)).length ≤ f := by
          rw [List.length_drop, List.length_cons]
          omega
        exact no_occ_boundary pat rep _ hp h1 h2 (ih _ hdf)
      · rw [if_neg hpre]
        rw [occursIn_cons, Bool.or_eq_false_iff]
        refine ⟨?_, ih rest hrf⟩
        by_contra hx
        rw [Bool.not_eq_false, List.isPrefixOf_iff_prefix] at hx
        set T := substAllF pat rep f rest with hT
        obtain ⟨x, xs, hpat⟩ := List.exists_cons_of_ne_nil hp
        rw [hpat, List.cons_prefix_cons] at hx
        obtain ⟨hxc, hxT⟩ := hx
        have hxs : xs = pat.drop 1 := by rw [hpat, List.drop_one, List.tail_cons]
        apply hpre
        rw [ List.isPrefixOf_iff_prefix]
        by_cases h1lt : 1 < pat.length
        · have hxT2 : pat.drop 1 <+: substAllF pat rep f rest := by
            rw [← hT, ← hxs]
            exact hxT
          have hrec : pat.drop 1 <+: rest :=
            substAllF_lead_track pat pat rep hp hlen h1 h3 f rest 1 hrf h1lt hxT2
          rw [hpat, List.cons_prefix_cons]
          exact ⟨hxc, hxs ▸ hrec⟩
        · have hxs0 : xs = [] := by
            apply List.eq_nil_of_length_eq_zero
            have := congrArg List.length hpat
            rw [List.length_cons] at this
            omega
          rw [hpat, hxs0, List.cons_prefix_cons]
          exact ⟨hxc, List.nil_prefix⟩

theorem substAllF_preserves_no_occ (P Q R : List Char) (hP : P ≠ []) (hQ : Q ≠ [])
    (hlen : P.length ≤ R.length) (h1 : occursIn P R = false)
    (h2 : tailHeadOverlap P R = false) (h3 : headTailOverlap P R = false) :
    ∀ (f : Nat) (s : List Char), s.length ≤ f → occursIn P s = false →
      occursIn P (substAllF Q R f s) = false := by
  intro f
  induction f with
  | zero => intro s _ h; exact h
  | succ f ih =>
    intro s hs h
    cases s with
    | nil => exact h
    | cons c rest =>
      have hrf : rest.length ≤ f := by rw [List.length_cons] at hs; omega
      have hqlen : 1 ≤ Q.length := List.length_pos.mpr hQ
      rw [occursIn_cons, Bool.or_eq_false_iff] at h
      obtain ⟨hlead, hrest⟩ := h
      rw [substAllF_succ_cons]
      by_cases hq : Q.isPrefixOf (c :: rest) = true
      · rw [if_pos hq]
        have hdno : occursIn P (List.drop Q.length (c :: rest)) = false := by
          by_contra hd
          rw [Bool.not_eq_false] at hd
          have : occursIn P (c :: rest) = true :=
            occursIn_of_suffix_occ P _ _ (List.drop_suffix Q.length (c :: rest)) hd
          rw [occursIn_cons, hlead, hrest] at this
          exact Bool.false_ne_true this
        have hdf : (List.drop Q.length (c :: rest)).length ≤ f := by
          rw [List.length_drop, List.length_cons]
          omega
        exact no_occ_boundary P R _ hP h1 h2 (ih _ hdf hdno)
      · rw [if_neg hq]
        rw [occursIn_cons, Bool.or_eq_false_iff]
        refine ⟨?_, ih rest hrf hrest⟩
        by_contra hx
        rw [Bool.not_eq_false, List.isPrefixOf_iff_prefix] at hx
        set T := substAllF Q R f rest with hT
        obtain ⟨x, xs, hpat⟩ := List.exists_cons_of_ne_nil hP
        rw [hpat, List.cons_prefix_cons] at hx
        obtain ⟨hxc, hxT⟩ := hx
        have hxs : xs = P.drop 1 := by rw [hpat, List.drop_one, List.tail_cons]
        rw [Bool.eq_false_iff] at hlead
        apply hlead
        rw [ List.isPrefixOf_iff_prefix]
        by_cases h1lt : 1 < P.length
        · have hxT2 : P.drop 1 <+: substAllF Q R f rest := by
            rw [← hT, ← hxs]
            exact hxT
          have hrec : P.drop 1 <+: rest :=
            substAllF_lead_track P Q R hP hlen h1 h3 f rest 1 hrf h1lt hxT2
          rw [hpat, List.cons_prefix_cons]
          exact ⟨hxc, hxs ▸ hrec⟩
        · have hxs0 : xs = [] := by
            apply List.eq_nil_of_length_eq_zero
            have := congrArg List.length hpat
            rw [List.length_cons] at this
            omega
          rw [hpat, hxs0, List.cons_prefix_cons]
          exact ⟨hxc, List.nil_prefix⟩

theorem substAllF_replace_lead (pat rep : List Char) (hp : pat ≠ []) :
    ∀ (a : List Char) (f : Nat) (b : List Char), (a ++ pat ++ b).length ≤ f →
      occursIn pat ((a ++ pat).dropLast) = false →
      substAllF pat rep f (a ++ pat ++ b) = a ++ rep ++ substAll pat rep b := by
  intro a
  induction a with
  | nil =>
    intro f b hf H
    obtain ⟨x, ptl, hpat⟩ := List.exists_cons_of_ne_nil hp
    rw [List.nil_append]
    have hplen : 1 ≤ pat.length := List.length_pos.mpr hp
    cases f with
    | zero =>
      exfalso
      rw [List.nil_append, List.length_append] at hf
      omega
    | succ f =>
      have hcons : pat ++ b = x :: (ptl ++ b) := by rw [hpat, List.cons_append]
      rw [hcons, substAllF_succ_cons]
      have hpre : pat.isPrefixOf (x :: (ptl ++ b)) = true := by
        rw [ List.isPrefixOf_iff_prefix, ← hcons]
        exact List.prefix_append pat b
      rw [if_pos hpre]
      have hdrop : List.drop pat.length (x :: (ptl ++ b)) = b := by
        rw [← hcons]
        exact List.drop_left pat b
      rw [hdrop]
      have hfb : b.length ≤ f := by
        rw [List.nil_append, List.length_append] at hf
        omega
      rw [← substAll_eq_substAllF pat rep hp f b hfb, List.nil_append]
  | cons y a2 ih =>
    intro f b hf H
    have hs : (y :: a2) ++ pat ++ b = y :: (a2 ++ pat ++ b) := by simp
    cases f with
    | zero =>
      exfalso
      rw [hs, List.length_cons] at hf
      omega
    | succ f =>
      rw [hs, substAllF_succ_cons]
      have hnp : pat.isPrefixOf (y :: (a2 ++ pat ++ b)) = false := by
        rw [Bool.eq_false_iff]
        intro hxx
        rw [ List.isPrefixOf_iff_prefix] at hxx
        have hdne : (y :: a2) ++ pat ≠ [] := by simp
        have hlen_d : pat.length ≤ (((y :: a2) ++ pat).dropLast).length := by
          rw [List.length_dropLast, List.length_append, List.length_cons]
          have := List.length_pos.mpr hp
          omega
        have hsplit : (y :: a2) ++ pat =
            ((y :: a2) ++ pat).dropLast ++ [((y :: a2) ++ pat).getLast hdne] :=
          (List.dropLast_append_getLast hdne).symm
        have hxx2 : pat <+: ((y :: a2) ++ pat) ++ b := by
          have hgroup : ((y :: a2) ++ pat) ++ b = y :: (a2 ++ pat ++ b) := by simp
          rw [hgroup]
          exact hxx
        rw [hsplit, List.append_assoc] at hxx2
        have hpd : pat <+: ((y :: a2) ++ pat).dropLast :=
          List.prefix_of_prefix_length_le hxx2 (List.prefix_append _ _) hlen_d
        have hocc : occursIn pat (((y :: a2) ++ pat).dropLast) = true :=
          occursIn_of_lead pat _ hp hpd
        rw [H] at hocc
        exact Bool.false_ne_true hocc
      rw [if_neg (by rw [hnp]; exact Bool.false_ne_true)]
      have hH2 : occursIn pat ((a2 ++ pat).dropLast) = false := by
        have hne2 : a2 ++ pat ≠ [] := by simp [hp]
        have hdl : ((y :: a2) ++ pat).dropLast = y :: (a2 ++ pat).dropLast := by
          rw [List.cons_append, List.dropLast_cons_of_ne_nil hne2]
        rw [hdl, occursIn_cons, Bool.or_eq_false_iff] at H
        exact H.2
      have hf2 : (a2 ++ pat ++ b).length ≤ f := by
        rw [hs, List.length_cons] at hf
        omega
      rw [ih f b hf2 hH2]
      simp

theorem substAll_replace_lead (pat rep : List Char) (hp : pat ≠ []) (a b : List Char)
    (H : occursIn pat ((a ++ pat).dropLast) = false) :
    substAll pat rep (a ++ pat ++ b) = a ++ rep ++ substAll pat rep b :=
  substAllF_replace_lead pat rep hp a (a ++ pat ++ b).length b le_rfl H

theorem snap_side_conds :
    snapPatL ≠ [] ∧ snapPatL.length ≤ snapRepL.length ∧
    occursIn snapPatL snapRepL = false ∧ tailHeadOverlap snapPatL snapRepL = false ∧
    headTailOverlap snapPatL snapRepL = false :=
  ⟨by decide, by decide, by decide, by decide, by decide⟩

theorem center_side_conds :
    centerPatL ≠ [] ∧ centerPatL.length ≤ centerRepL.length ∧
    occursIn centerPatL centerRepL = false ∧ tailHeadOverlap centerPatL centerRepL = false ∧
    headTailOverlap centerPatL centerRepL = false :=
  ⟨by decide, by decide, by decide, by decide, by decide⟩

theorem cross_side_conds :
    snapPatL.length ≤ centerRepL.length ∧
    occursIn snapPatL centerRepL = false ∧ tailHeadOverlap snapPatL centerRepL = false ∧
    headTailOverlap snapPatL centerRepL = false :=
  ⟨by decide, by decide, by decide, by decide⟩

theorem no_snap_occ_after (s : List Char) :
    occursIn snapPatL (substAll snapPatL snapRepL s) = false :=
  substAllF_no_self_occ snapPatL snapRepL snap_side_conds.1 snap_side_conds.2.1
    snap_side_conds.2.2.1 snap_side_conds.2.2.2.1 snap_side_conds.2.2.2.2
    s.length s le_rfl

theorem no_center_occ_after (s : List Char) :
    occursIn centerPatL (substAll centerPatL centerRepL s) = false :=
  substAllF_no_self_occ centerPatL centerRepL center_side_conds.1 center_side_conds.2.1
    center_side_conds.2.2.1 center_side_conds.2.2.2.1 center_side_conds.2.2.2.2
    s.length s le_rfl

theorem no_snap_occ_preserved (s : List Char) (h : occursIn snapPatL s = false) :
    occursIn snapPatL (substAll centerPatL centerRepL s) = false :=
  substAllF_preserves_no_occ snapPatL centerPatL centerRepL snap_side_conds.1
    center_side_conds.1 cross_side_conds.1 cross_side_conds.2.1 cross_side_conds.2.2.1
    cross_side_conds.2.2.2 s.length s le_rfl h

theorem grid_transform_idem (c : List Char) :
    grid_transform (grid_transform c) = grid_transform c := by
  have h2 : occursIn snapPatL (grid_transform c) = false :=
    no_snap_occ_preserved _ (no_snap_occ_after c)
  have h3 : occursIn centerPatL (grid_transform c) = false := no_center_occ_after _
  show substAll centerPatL centerRepL (substAll snapPatL snapRepL (grid_transform c)) =
    grid_transform c
  rw [substAll_id_of_no_occ snapPatL snapRepL _ h2,
    substAll_id_of_no_occ centerPatL centerRepL _ h3]

theorem grid_transform_center : grid_transform centerPatL = centerRepL := by
  show substAll centerPatL centerRepL (substAll snapPatL snapRepL centerPatL) = centerRepL
  rw [substAll_id_of_no_occ snapPatL snapRepL centerPatL (by decide)]
  have h := substAll_replace_lead centerPatL centerRepL center_side_conds.1 [] []
    (by decide)
  have h0 : substAll centerPatL centerRepL ([] : List Char) = [] := rfl
  simp [h0] at h
  exact h

theorem grid_run_center : grid_run centerPatL = ⟨centerRepL, true, false⟩ := by
  unfold grid_run
  rw [grid_transform_center]
  have hne : (centerRepL == centerPatL) = false := by decide
  simp [hne]

/-- C6: applying the grid-snap patcher's transformation a second time, to
text produced by a first successful (file-writing) application, leaves that
text unchanged — neither pattern occurs in the already-patched text — and
the second run takes the non-match diagnostic branch instead of writing. -/
theorem grid_patcher_second_run_is_noop (c : List Char)
    (h : (grid_run c).wrote = true) :
    occursIn snapPatL ((grid_run c).output) = false ∧
    occursIn centerPatL ((grid_run c).output) = false ∧
    grid_run ((grid_run c).output) = ⟨(grid_run c).output, false, true⟩ := by
  have hout : (grid_run c).output = grid_transform c := by
    unfold grid_run at h ⊢
    by_cases hc : (grid_transform c == c) = true
    · rw [if_pos hc] at h
      exact absurd h (by simp)
    · rw [if_neg hc]
  have h2 : occursIn snapPatL (grid_transform c) = false :=
    no_snap_occ_preserved _ (no_snap_occ_after c)
  have h3 : occursIn centerPatL (grid_transform c) = false := no_center_occ_after _
  refine ⟨hout ▸ h2, hout ▸ h3, ?_⟩
  rw [hout]
  unfold grid_run
  rw [grid_transform_idem c]
  simp

theorem grid_patcher_second_run_is_noop_witness :
    (grid_run centerPatL).wrote = true ∧
    (occursIn snapPatL ((grid_run centerPatL).output) = false ∧
     occursIn centerPatL ((grid_run centerPatL).output) = false ∧
     grid_run ((grid_run centerPatL).output) =
       ⟨(grid_run centerPatL).output, false, true⟩) :=
  ⟨by rw [grid_run_center], grid_patcher_second_run_is_noop centerPatL (by rw [grid_run_center])⟩

/-- C4: on input containing the two exact pre-offset function bodies (laid
out as they occur in the target file: first occurrence of each pattern at
its expected place, no stray occurrence elsewhere), the patcher's output is
the input with both bodies replaced, and the output contains the offset
defaults (`?? 0`), the cell-dimension defaults (`?? gridSize`), and each
coordinate computation subtracting the per-axis offset before the
`Math.round`/`Math.floor` and re-adding it after. -/
theorem grid_patch_inserts_offset_functions (pre mid post : List Char)
    (H1 : occursIn snapPatL ((pre ++ snapPatL).dropLast) = false)
    (H2 : occursIn snapPatL (mid ++ centerPatL ++ post) = false)
    (H3 : occursIn centerPatL (((pre ++ snapRepL ++ mid) ++ centerPatL).dropLast) = false)
    (H4 : occursIn centerPatL post = false) :
    grid_transform (pre ++ snapPatL ++ mid ++ centerPatL ++ post) =
      pre ++ snapRepL ++ mid ++ centerRepL ++ post ∧
    occursIn offXLineL (grid_transform (pre ++ snapPatL ++ mid ++ centerPatL ++ post)) = true ∧
    occursIn offYLineL (grid_transform (pre ++ snapPatL ++ mid ++ centerPatL ++ post)) = true ∧
    occursIn cellWLineL (grid_transform (pre ++ snapPatL ++ mid ++ centerPatL ++ post)) = true ∧
    occursIn cellHLineL (grid_transform (pre ++ snapPatL ++ mid ++ centerPatL ++ post)) = true ∧
    occursIn roundXLineL (grid_transform (pre ++ snapPatL ++ mid ++ centerPatL ++ post)) = true ∧
    occursIn roundYLineL (grid_transform (pre ++ snapPatL ++ mid ++ centerPatL ++ post)) = true ∧
    occursIn floorXLineL (grid_transform (pre ++ snapPatL ++ mid ++ centerPatL ++ post)) = true ∧
    occursIn floorYLineL (grid_transform (pre ++ snapPatL ++ mid ++ centerPatL ++ post)) = true := by
  have e1 : substAll snapPatL snapRepL (pre ++ snapPatL ++ (mid ++ centerPatL ++ post)) =
      pre ++ snapRepL ++ (mid ++ centerPatL ++ post) := by
    rw [substAll_replace_lead snapPatL snapRepL snap_side_conds.1 pre
      (mid ++ centerPatL ++ post) H1, substAll_id_of_no_occ _ _ _ H2]
  have e2 : substAll centerPatL centerRepL ((pre ++ snapRepL ++ mid) ++ centerPatL ++ post) =
      (pre ++ snapRepL ++ mid) ++ centerRepL ++ post := by
    rw [substAll_replace_lead centerPatL centerRepL center_side_conds.1
      (pre ++ snapRepL ++ mid) post H3, substAll_id_of_no_occ _ _ _ H4]
  have hmain : grid_transform (pre ++ snapPatL ++ mid ++ centerPatL ++ post) =
      pre ++ snapRepL ++ mid ++ centerRepL ++ post := by
    show substAll centerPatL centerRepL
        (substAll snapPatL snapRepL (pre ++ snapPatL ++ mid ++ centerPatL ++ post)) =
      pre ++ snapRepL ++ mid ++ centerRepL ++ post
    have hin : pre ++ snapPatL ++ mid ++ centerPatL ++ post =
        pre ++ snapPatL ++ (mid ++ centerPatL ++ post) := by simp
    rw [hin, e1]
    have hassoc : pre ++ snapRepL ++ (mid ++ centerPatL ++ post) =
        (pre ++ snapRepL ++ mid) ++ centerPatL ++ post := by simp
    rw [hassoc, e2]
  have hsnap : ∀ x : List Char, occursIn x snapRepL = true →
      occursIn x (pre ++ snapRepL ++ mid ++ centerRepL ++ post) = true := by
    intro x hx
    exact occursIn_append_right x _ post (occursIn_append_right x _ centerRepL
      (occursIn_append_right x _ mid (occursIn_append_left x pre snapRepL hx)))
  have hcenter : ∀ x : List Char, occursIn x centerRepL = true →
      occursIn x (pre ++ snapRepL ++ mid ++ centerRepL ++ post) = true := by
    intro x hx
    exact occursIn_append_right x _ post (occursIn_append_left x _ centerRepL hx)
  refine ⟨hmain, ?_, ?_, ?_, ?_, ?_, ?_, ?_, ?_⟩ <;> rw [hmain]
  · exact hsnap _ (by decide)
  · exact hsnap _ (by decide)
  · exact hsnap _ (by decide)
  · exact hsnap _ (by decide)
  · exact hsnap _ (by decide)
  · exact hsnap _ (by decide)
  · exact hcenter _ (by decide)
  · exact hcenter _ (by decide)

theorem grid_patch_inserts_offset_functions_witness :
    grid_transform ([] ++ snapPatL ++ ("\n").toList ++ centerPatL ++ []) =
      [] ++ snapRepL ++ ("\n").toList ++ centerRepL ++ [] ∧
    occursIn offXLineL (grid_transform ([] ++ snapPatL ++ ("\n").toList ++ centerPatL ++ [])) = true ∧
    occursIn offYLineL (grid_transform ([] ++ snapPatL ++ ("\n").toList ++ centerPatL ++ [])) = true ∧
    occursIn cellWLineL (grid_transform ([] ++ snapPatL ++ ("\n").toList ++ centerPatL ++ [])) = true ∧
    occursIn cellHLineL (grid_transform ([] ++ snapPatL ++ ("\n").toList ++ centerPatL ++ [])) = true ∧
    occursIn roundXLineL (grid_transform ([] ++ snapPatL ++ ("\n").toList ++ centerPatL ++ [])) = true ∧
    occursIn roundYLineL (grid_transform ([] ++ snapPatL ++ ("\n").toList ++ centerPatL ++ [])) = true ∧
    occursIn floorXLineL (grid_transform ([] ++ snapPatL ++ ("\n").toList ++ centerPatL ++ [])) = true ∧
    occursIn floorYLineL (grid_transform ([] ++ snapPatL ++ ("\n").toList ++ centerPatL ++ [])) = true :=
  grid_patch_inserts_offset_functions [] (("\n").toList) [] (by decide) (by decide)
    (by decide) (by decide)

/-- C8 counterexample: with the target file absent or unreadable (the read
raises an exception), the grid patcher's process exit status is not 0 —
the `open` on line 10 is unguarded, so the interpreter exits nonzero. -/
theorem grid_script_unreadable_exit_nonzero :
    exit_code_of (grid_script (Except.error (("No such file or directory").toList))
      (Except.ok ())) ≠ 0 := by decide

/-- C8 (amended): the grid-snap patcher terminates with exit status 0
whenever the target file is read successfully and, if a change is made,
written successfully — pattern non-match is reported only through console
text; but a failing read (file absent or unreadable) or a failing write
propagates as an uncaught exception and the interpreter exits 1. -/
theorem grid_script_exit_codes :
    (∀ c : List Char, exit_code_of (grid_script (Except.ok c) (Except.ok ())) = 0) ∧
    (∀ (e : List Char) (w : Except (List Char) Unit),
      exit_code_of (grid_script (Except.error e) w) = 1) := by
  constructor
  · intro c
    by_cases hc : (grid_transform c == c) = true
    · simp [grid_script, exit_code_of, hc]
    · simp [grid_script, exit_code_of, hc]
  · intro e w
    rfl

theorem needs_js_extension_eq (p : List Char) :
    needs_js_extension p =
      (((("./").toList.isPrefixOf p) || (("../").toList.isPrefixOf p)) &&
        !((".js").toList.isSuffixOf p)) := by
  unfold needs_js_extension
  cases hs : (".js").toList.isSuffixOf p <;>
    cases h1 : ("./").toList.isPrefixOf p <;>
      cases h2 : ("../").toList.isPrefixOf p <;> simp [hs, h1, h2]

theorem add_js_extension_of_not_needs (fs : FS) (dir p : List Char)
    (h : needs_js_extension p = false) : add_js_extension fs dir p = p := by
  unfold add_js_extension
  simp [h]

theorem add_js_extension_append (fs : FS) (dir p : List Char)
    (h : needs_js_extension p = true) :
    add_js_extension fs dir p = p ++ (".js").toList ∨
    add_js_extension fs dir p = p ++ ("/index.js").toList := by
  unfold add_js_extension
  simp only [h, Bool.not_true, Bool.false_eq_true, if_false]
  split_ifs <;> first | exact Or.inl rfl | exact Or.inr rfl

theorem needs_append_js (x : List Char) :
    needs_js_extension (x ++ (".js").toList) = false := by
  unfold needs_js_extension
  have hs : (".js").toList.isSuffixOf (x ++ (".js").toList) = true := by
    rw [ List.isSuffixOf_iff_suffix]
    exact List.suffix_append x _
  simp [hs]

/-- C10: `add_js_extension` is idempotent — its output either equals the
input (no rewrite needed) or ends in `.js`, so a second application
returns the output unchanged; a rewritten specifier is never rewritten
again by a later pass or run. -/
theorem add_js_extension_idempotent (fs : FS) (dir p : List Char) :
    add_js_extension fs dir (add_js_extension fs dir p) = add_js_extension fs dir p ∧
    (add_js_extension fs dir p = p ∨
      (".js").toList.isSuffixOf (add_js_extension fs dir p) = true) := by
  by_cases h : needs_js_extension p = true
  · have hsplit : ("/index.js").toList = ("/index").toList ++ (".js").toList := by decide
    rcases add_js_extension_append fs dir p h with h1 | h1
    · refine ⟨?_, Or.inr ?_⟩
      · rw [h1]
        exact add_js_extension_of_not_needs fs dir _ (needs_append_js p)
      · rw [h1, List.isSuffixOf_iff_suffix]
        exact List.suffix_append p _
    · refine ⟨?_, Or.inr ?_⟩
      · rw [h1, hsplit, ← List.append_assoc]
        exact add_js_extension_of_not_needs fs dir _ (needs_append_js _)
      · rw [h1, hsplit, ← List.append_assoc, List.isSuffixOf_iff_suffix]
        exact List.suffix_append _ _
  · have h0 : needs_js_extension p = false := by
      cases hx : needs_js_extension p
      · rfl
      · exact absurd hx h
    have hid := add_js_extension_of_not_needs fs dir p h0
    refine ⟨?_, Or.inl hid⟩
    rw [hid]
    exact hid

theorem add_js_extension_idempotent_witness :
    add_js_extension exampleFS (("/src").toList)
        (add_js_extension exampleFS (("/src").toList) (("./foo").toList)) =
      add_js_extension exampleFS (("/src").toList) (("./foo").toList) :=
  (add_js_extension_idempotent exampleFS (("/src").toList) (("./foo").toList)).1

/-- C2: for a specifier that needs rewriting, `add_js_extension` resolves
it against the importing file's directory; when the resolved path is an
existing directory containing `index.ts`, the result appends `/index.js`
unless the specifier already ends in `/index` (then only `.js`); in every
other case `.js` is appended directly.  Concretely, `./foo` with such a
directory `foo` yields `./foo/index.js`, and `./foo/index` yields
`./foo/index.js` with no duplicated segment. -/
theorem add_js_extension_resolution (fs : FS) (dir p : List Char)
    (h : needs_js_extension p = true) :
    (fs.isDir (resolvePath dir p) = true →
      fs.pathExists (resolvePath dir p ++ '/' :: ("index.ts").toList) = true →
      add_js_extension fs dir p =
        (if ("/index").toList.isSuffixOf p then p ++ (".js").toList
         else p ++ ("/index.js").toList)) ∧
    ((fs.isDir (resolvePath dir p) = false ∨
      fs.pathExists (resolvePath dir p ++ '/' :: ("index.ts").toList) = false) →
      add_js_extension fs dir p = p ++ (".js").toList) ∧
    add_js_extension exampleFS (("/src").toList) (("./foo").toList) =
      ("./foo/index.js").toList ∧
    add_js_extension exampleFS (("/src").toList) (("./foo/index").toList) =
      ("./foo/index.js").toList := by
  refine ⟨?_, ?_, by decide, by decide⟩
  · intro hd he
    unfold add_js_extension
    simp only [h, Bool.not_true, Bool.false_eq_true, if_false, hd, if_true, he]
  · intro hcase
    unfold add_js_extension
    simp only [h, Bool.not_true, Bool.false_eq_true, if_false]
    rcases hcase with hd | he
    · rw [if_neg (by rw [hd]; exact Bool.false_ne_true)]
    · cases hd2 : fs.isDir (resolvePath dir p)
      · rw [if_neg (by exact Bool.false_ne_true)]
      · rw [if_pos (by exact rfl), if_neg (by rw [he]; exact Bool.false_ne_true)]

theorem add_js_extension_resolution_witness :
    add_js_extension exampleFS (("/src").toList) (("./foo").toList) =
      ("./foo/index.js").toList :=
  (add_js_extension_resolution exampleFS (("/src").toList) (("./foo").toList)
    (by decide)).2.2.1

theorem js_len : ((".js").toList).length = 3 := by decide

theorem index_js_len : (("/index.js").toList).length = 9 := by decide

/-- C1: a specifier matched by either regex pass is rewritten (its rendered
text changes) if and only if it begins with `./` or `../` and does not
already end with `.js`; every other matched specifier is emitted as
`match.group(0)`, byte-for-byte unchanged. -/
theorem matched_specifier_rewrite_iff (fs : FS) (dir pre p : List Char) (q q2 : Char) :
    (needs_js_extension p =
      (((("./").toList.isPrefixOf p) || (("../").toList.isPrefixOf p)) &&
        !((".js").toList.isSuffixOf p))) ∧
    (needs_js_extension p = false →
      applyStat fs dir (Tok.stat pre q p q2) = (Tok.stat pre q p q2, 0) ∧
      applyDyn fs dir (Tok.dyn q p q2) = (Tok.dyn q p q2, 0)) ∧
    (Tok.render (applyStat fs dir (Tok.stat pre q p q2)).1 ≠
        Tok.render (Tok.stat pre q p q2) ↔ needs_js_extension p = true) ∧
    (Tok.render (applyDyn fs dir (Tok.dyn q p q2)).1 ≠
        Tok.render (Tok.dyn q p q2) ↔ needs_js_extension p = true) := by
  have hlen : ∀ hne : needs_js_extension p = true,
      (add_js_extension fs dir p).length ≠ p.length := by
    intro hne
    rcases add_js_extension_append fs dir p hne with h1 | h1 <;>
      rw [h1, List.length_append] <;> simp [js_len, index_js_len]
  refine ⟨needs_js_extension_eq p, ?_, ?_, ?_⟩
  · intro h
    constructor
    · simp [applyStat, h]
    · simp [applyDyn, h]
  · by_cases h : needs_js_extension p = true
    · simp only [h, iff_true]
      have hfst : (applyStat fs dir (Tok.stat pre q p q2)).1 =
          Tok.raw (pre ++ q :: (add_js_extension fs dir p ++ [q])) := by
        simp [applyStat, h]
      rw [hfst]
      intro heq
      have hl := congrArg List.length heq
      simp only [Tok.render, List.length_append, List.length_cons] at hl
      exact hlen h (by omega)
    · have h0 : needs_js_extension p = false := by
        cases hx : needs_js_extension p
        · rfl
        · exact absurd hx h
      simp [applyStat, h0]
  · by_cases h : needs_js_extension p = true
    · simp only [h, iff_true]
      have hfst : (applyDyn fs dir (Tok.dyn q p q2)).1 =
          Tok.raw (("import(").toList ++ q :: (add_js_extension fs dir p ++ q :: [')'])) := by
        simp [applyDyn, h]
      rw [hfst]
      intro heq
      have hl := congrArg List.length heq
      simp only [Tok.render, List.length_append, List.length_cons] at hl
      exact hlen h (by omega)
    · have h0 : needs_js_extension p = false := by
        cases hx : needs_js_extension p
        · rfl
        · exact absurd hx h
      simp [applyDyn, h0]

theorem matched_specifier_rewrite_iff_witness :
    Tok.render (applyStat exampleFS (("/src").toList)
        (Tok.stat (("import x from ").toList) '\'' (("./bar").toList) '\'')).1 ≠
      Tok.render (Tok.stat (("import x from ").toList) '\'' (("./bar").toList) '\'') :=
  (matched_specifier_rewrite_iff exampleFS (("/src").toList) (("import x from ").toList)
    (("./bar").toList) '\'' '\'').2.2.1.mpr (by decide)

/-- C9: dynamic `import(...)` specifiers are classified and resolved by
exactly the same functions (`needs_js_extension` / `add_js_extension`) as
static import/export specifiers, and each rewrite surrounds the new
specifier with the matched literal's opening quote character, whichever
quote kind that is (the closing-quote group is discarded). -/
theorem dynamic_same_rules_as_static (fs : FS) (dir pre p : List Char) (q q2 : Char)
    (h : needs_js_extension p = true) :
    applyStat fs dir (Tok.stat pre q p q2) =
      (Tok.raw (pre ++ q :: (add_js_extension fs dir p ++ [q])), 1) ∧
    applyDyn fs dir (Tok.dyn q p q2) =
      (Tok.raw (("import(").toList ++ q :: (add_js_extension fs dir p ++ q :: [')'])), 1) := by
  constructor
  · simp [applyStat, h]
  · simp [applyDyn, h]

theorem dynamic_same_rules_as_static_witness :
    applyStat exampleFS (("/src").toList)
        (Tok.stat (("import x from ").toList) '\'' (("./mod").toList) '\"') =
      (Tok.raw ((("import x from ").toList) ++ '\'' ::
        (add_js_extension exampleFS (("/src").toList) (("./mod").toList) ++ ['\''])), 1) ∧
    applyDyn exampleFS (("/src").toList) (Tok.dyn '\'' (("./mod").toList) '\"') =
      (Tok.raw (("import(").toList ++ '\'' ::
        (add_js_extension exampleFS (("/src").toList) (("./mod").toList) ++ '\'' :: [')'])), 1) :=
  dynamic_same_rules_as_static exampleFS (("/src").toList) (("import x from ").toList)
    (("./mod").toList) '\'' '\"' (by decide)

/-- C5: neither script writes its target when the transformed content
equals what was read: the grid patcher enters its write branch exactly
when a substitution textually changed the content, and the import fixer
opens a file for writing exactly when the read succeeded and the two regex
passes changed the file's text. -/
theorem scripts_write_only_on_change (c : List Char) (fs : FS) (f : SrcFile) :
    ((grid_run c).wrote = true ↔ grid_transform c ≠ c) ∧
    ((fix_imports_in_file fs f).written = true ↔
      f.readErr = none ∧
        renderToks (processToks fs f.dir f.toks).1 ≠ renderToks f.toks) := by
  constructor
  · by_cases hc : grid_transform c = c
    · have hb : (grid_transform c == c) = true := beq_iff_eq.mpr hc
      unfold grid_run
      rw [if_pos hb]
      simp [hc]
    · have hb : (grid_transform c == c) = false := beq_eq_false_iff_ne.mpr hc
      unfold grid_run
      rw [if_neg (by rw [hb]; exact Bool.false_ne_true)]
      simp [hc]
  · cases hr : f.readErr with
    | some e =>
      unfold fix_imports_in_file
      rw [hr]
      simp
    | none =>
      unfold fix_imports_in_file
      rw [hr]
      by_cases hcc : renderToks (processToks fs f.dir f.toks).1 = renderToks f.toks
      · rw [if_pos hcc]
        simp [hcc]
      · rw [if_neg hcc]
        cases hw : f.writeErr <;> simp [hcc]

theorem scripts_write_only_on_change_witness :
    (grid_run centerPatL).wrote = true ↔ grid_transform centerPatL ≠ centerPatL :=
  (scripts_write_only_on_change centerPatL exampleFS
    ⟨[], [], [], none, none⟩).1

/-- C7: a read error on an individual file is caught: the file is logged
with a message built from its path and the error text and reported as
(not modified, 0 changes); a write error likewise; in either case the
directory fold continues over the remaining files with its accumulator
unchanged, so no per-file I/O error aborts the run. -/
theorem per_file_io_errors_contained (fs : FS) (f : SrcFile) (e : List Char)
    (rest : List SrcFile) :
    (f.readErr = some e →
      fix_imports_in_file fs f = ⟨false, 0, [readErrMsg f.path e], false⟩ ∧
      fix_imports_in_directory fs (f :: rest) = fix_imports_in_directory fs rest) ∧
    (f.readErr = none → f.writeErr = some e →
      renderToks (processToks fs f.dir f.toks).1 ≠ renderToks f.toks →
      fix_imports_in_file fs f = ⟨false, 0, [writeErrMsg f.path e], true⟩ ∧
      fix_imports_in_directory fs (f :: rest) = fix_imports_in_directory fs rest) := by
  have hfold : ∀ g : SrcFile, (fix_imports_in_file fs g).modified = false →
      fix_imports_in_directory fs (g :: rest) = fix_imports_in_directory fs rest := by
    intro g hg
    unfold fix_imports_in_directory
    rw [List.foldl_cons]
    congr 1
    simp [hg]
  constructor
  · intro hr
    have hfile : fix_imports_in_file fs f = ⟨false, 0, [readErrMsg f.path e], false⟩ := by
      unfold fix_imports_in_file
      rw [hr]
    exact ⟨hfile, hfold f (by rw [hfile])⟩
  · intro hr hw hne
    have hfile : fix_imports_in_file fs f = ⟨false, 0, [writeErrMsg f.path e], true⟩ := by
      unfold fix_imports_in_file
      rw [hr]
      dsimp only
      rw [if_neg hne, hw]
    exact ⟨hfile, hfold f (by rw [hfile])⟩

theorem per_file_io_errors_contained_witness :
    fix_imports_in_file exampleFS
        ⟨("a.ts").toList, ("/src").toList, [], some (("boom").toList), none⟩ =
      ⟨false, 0, [readErrMsg (("a.ts").toList) (("boom").toList)], false⟩ ∧
    fix_imports_in_directory exampleFS
        (⟨("a.ts").toList, ("/src").toList, [], some (("boom").toList), none⟩ :: []) =
      fix_imports_in_directory exampleFS [] :=
  (per_file_io_errors_contained exampleFS
    ⟨("a.ts").toList, ("/src").toList, [], some (("boom").toList), none⟩
    (("boom").toList) []).1 rfl

theorem bool_false_of_not_true {b : Bool} (h : ¬ b = true) : b = false := by
  cases b
  · rfl
  · exact absurd rfl h

theorem applyStat_snd (fs : FS) (dir : List Char) (t : Tok) :
    (applyStat fs dir t).2 = if statRewritable t then 1 else 0 := by
  cases t with
  | raw s => rfl
  | stat pre q p q2 =>
    by_cases h : needs_js_extension p = true
    · simp [applyStat, statRewritable, h]
    · simp [applyStat, statRewritable, bool_false_of_not_true h]
  | dyn q p q2 => rfl

theorem applyStat_fst_of_not (fs : FS) (dir : List Char) (t : Tok)
    (h : statRewritable t = false) : (applyStat fs dir t).1 = t := by
  cases t with
  | raw s => rfl
  | stat pre q p q2 =>
    rw [statRewritable] at h
    simp [applyStat, h]
  | dyn q p q2 => rfl

theorem applyStat_len_lt (fs : FS) (dir : List Char) (t : Tok)
    (h : statRewritable t = true) :
    (Tok.render t).length < (Tok.render (applyStat fs dir t).1).length := by
  cases t with
  | raw s => exact absurd h (by simp [statRewritable])
  | stat pre q p q2 =>
    rw [statRewritable] at h
    simp only [applyStat, h, if_true, Tok.render, List.length_append, List.length_cons]
    rcases add_js_extension_append fs dir p h with h1 | h1 <;>
      rw [h1, List.length_append] <;> simp [js_len, index_js_len]
  | dyn q p q2 => exact absurd h (by simp [statRewritable])

theorem applyStat_len_le (fs : FS) (dir : List Char) (t : Tok) :
    (Tok.render t).length ≤ (Tok.render (applyStat fs dir t).1).length := by
  by_cases h : statRewritable t = true
  · exact le_of_lt (applyStat_len_lt fs dir t h)
  · rw [applyStat_fst_of_not fs dir t (bool_false_of_not_true h)]

theorem applyStat_dynRewritable (fs : FS) (dir : List Char) (t : Tok) :
    dynRewritable ((applyStat fs dir t).1) = dynRewritable t := by
  cases t with
  | raw s => rfl
  | stat pre q p q2 =>
    by_cases h : needs_js_extension p = true
    · simp [applyStat, h, dynRewritable]
    · simp [applyStat, bool_false_of_not_true h]
  | dyn q p q2 => rfl

theorem applyDyn_snd (fs : FS) (dir : List Char) (t : Tok) :
    (applyDyn fs dir t).2 = if dynRewritable t then 1 else 0 := by
  cases t with
  | raw s => rfl
  | stat pre q p q2 => rfl
  | dyn q p q2 =>
    by_cases h : needs_js_extension p = true
    · simp [applyDyn, dynRewritable, h]
    · simp [applyDyn, dynRewritable, bool_false_of_not_true h]

theorem applyDyn_fst_of_not (fs : FS) (dir : List Char) (t : Tok)
    (h : dynRewritable t = false) : (applyDyn fs dir t).1 = t := by
  cases t with
  | raw s => rfl
  | stat pre q p q2 => rfl
  | dyn q p q2 =>
    rw [dynRewritable] at h
    simp [applyDyn, h]

theorem applyDyn_len_lt (fs : FS) (dir : List Char) (t : Tok)
    (h : dynRewritable t = true) :
    (Tok.render t).length < (Tok.render (applyDyn fs dir t).1).length := by
  cases t with
  | raw s => exact absurd h (by simp [dynRewritable])
  | stat pre q p q2 => exact absurd h (by simp [dynRewritable])
  | dyn q p q2 =>
    rw [dynRewritable] at h
    simp only [applyDyn, h, if_true, Tok.render, List.length_append, List.length_cons]
    rcases add_js_extension_append fs dir p h with h1 | h1 <;>
      rw [h1, List.length_append] <;> simp [js_len, index_js_len]

theorem applyDyn_len_le (fs : FS) (dir : List Char) (t : Tok) :
    (Tok.render t).length ≤ (Tok.render (applyDyn fs dir t).1).length := by
  by_cases h : dynRewritable t = true
  · exact le_of_lt (applyDyn_len_lt fs dir t h)
  · rw [applyDyn_fst_of_not fs dir t (bool_false_of_not_true h)]

theorem renderToks_nil : renderToks [] = [] := rfl

theorem renderToks_cons (t : Tok) (ts : List Tok) :
    renderToks (t :: ts) = Tok.render t ++ renderToks ts := by
  simp [renderToks]

theorem mapPass_count (ap : Tok → Tok × Nat) (pr : Tok → Bool)
    (hsnd : ∀ t, (ap t).2 = if pr t then 1 else 0) :
    ∀ ts : List Tok, (ts.map (fun t => (ap t).2)).sum = ts.countP pr := by
  intro ts
  induction ts with
  | nil => rfl
  | cons t ts ih =>
    rw [List.map_cons, List.sum_cons, List.countP_cons, hsnd, ih]
    by_cases h : pr t = true <;> simp [h]
    omega

theorem mapPass_id (ap : Tok → Tok × Nat) (pr : Tok → Bool)
    (hfst : ∀ t, pr t = false → (ap t).1 = t) :
    ∀ ts : List Tok, ts.countP pr = 0 → ts.map (fun t => (ap t).1) = ts := by
  intro ts
  induction ts with
  | nil => intro _; rfl
  | cons t ts ih =>
    intro h
    rw [List.countP_cons] at h
    have h1 : ts.countP pr = 0 := by omega
    have h2 : pr t = false := by
      by_cases hx : pr t = true
      · rw [if_pos hx] at h; omega
      · exact bool_false_of_not_true hx
    rw [List.map_cons, hfst t h2, ih h1]

theorem mapPass_len_le (ap : Tok → Tok × Nat)
    (hle : ∀ t, (Tok.render t).length ≤ (Tok.render (ap t).1).length) :
    ∀ ts : List Tok,
      (renderToks ts).length ≤ (renderToks (ts.map (fun t => (ap t).1))).length := by
  intro ts
  induction ts with
  | nil => exact le_rfl
  | cons t ts ih =>
    rw [List.map_cons, renderToks_cons, renderToks_cons, List.length_append,
      List.length_append]
    exact Nat.add_le_add (hle t) ih

theorem mapPass_len_lt (ap : Tok → Tok × Nat) (pr : Tok → Bool)
    (hle : ∀ t, (Tok.render t).length ≤ (Tok.render (ap t).1).length)
    (hlt : ∀ t, pr t = true → (Tok.render t).length < (Tok.render (ap t).1).length) :
    ∀ ts : List Tok, 0 < ts.countP pr →
      (renderToks ts).length < (renderToks (ts.map (fun t => (ap t).1))).length := by
  intro ts
  induction ts with
  | nil => intro h; exact absurd h (by simp)
  | cons t ts ih =>
    intro h
    rw [List.map_cons, renderToks_cons, renderToks_cons, List.length_append,
      List.length_append]
    by_cases hx : pr t = true
    · exact Nat.add_lt_add_of_lt_of_le (hlt t hx) (mapPass_len_le ap hle ts)
    · have h1 : 0 < ts.countP pr := by
        rw [List.countP_cons, if_neg (by rw [bool_false_of_not_true hx]; exact Bool.false_ne_true)] at h
        omega
      exact Nat.add_lt_add_of_le_of_lt (hle t) (ih h1)

theorem mapPass_countP_pres (ap : Tok → Tok × Nat) (pr2 : Tok → Bool)
    (hpres : ∀ t, pr2 ((ap t).1) = pr2 t) :
    ∀ ts : List Tok, (ts.map (fun t => (ap t).1)).countP pr2 = ts.countP pr2 := by
  intro ts
  induction ts with
  | nil => rfl
  | cons t ts ih =>
    rw [List.map_cons, List.countP_cons, List.countP_cons, hpres, ih]

theorem countP_rewritable_split (ts : List Tok) :
    countRewritable ts = ts.countP statRewritable + ts.countP dynRewritable := by
  induction ts with
  | nil => rfl
  | cons t ts ih =>
    unfold countRewritable at ih ⊢
    rw [List.countP_cons, List.countP_cons, List.countP_cons, ih]
    cases t with
    | raw s => simp [rewritableTok, statRewritable, dynRewritable]
    | stat pre q p q2 =>
      by_cases h : needs_js_extension p = true <;>
        simp [rewritableTok, statRewritable, dynRewritable, h]
      all_goals omega
    | dyn q p q2 =>
      by_cases h : needs_js_extension p = true <;>
        simp [rewritableTok, statRewritable, dynRewritable, h]
      all_goals omega

theorem processToks_changes (fs : FS) (dir : List Char) (ts : List Tok) :
    (processToks fs dir ts).2 = countRewritable ts := by
  have h1 : (passStat fs dir ts).2 = ts.countP statRewritable :=
    mapPass_count (applyStat fs dir) statRewritable (applyStat_snd fs dir) ts
  have h2 : (passDyn fs dir (passStat fs dir ts).1).2 =
      ((passStat fs dir ts).1).countP dynRewritable :=
    mapPass_count (applyDyn fs dir) dynRewritable (applyDyn_snd fs dir) _
  have h3 : ((passStat fs dir ts).1).countP dynRewritable = ts.countP dynRewritable :=
    mapPass_countP_pres (applyStat fs dir) dynRewritable (applyStat_dynRewritable fs dir) ts
  show (passStat fs dir ts).2 + (passDyn fs dir (passStat fs dir ts).1).2 =
    countRewritable ts
  rw [h1, h2, h3, countP_rewritable_split]

theorem processToks_id (fs : FS) (dir : List Char) (ts : List Tok)
    (h : countRewritable ts = 0) : (processToks fs dir ts).1 = ts := by
  rw [countP_rewritable_split] at h
  have hs : ts.countP statRewritable = 0 := by omega
  have hd : ts.countP dynRewritable = 0 := by omega
  have h1 : (passStat fs dir ts).1 = ts :=
    mapPass_id (applyStat fs dir) statRewritable (applyStat_fst_of_not fs dir) ts hs
  show (passDyn fs dir (passStat fs dir ts).1).1 = ts
  rw [h1]
  exact mapPass_id (applyDyn fs dir) dynRewritable (applyDyn_fst_of_not fs dir) ts hd

theorem processToks_render_ne_iff (fs : FS) (dir : List Char) (ts : List Tok) :
    renderToks (processToks fs dir ts).1 ≠ renderToks ts ↔ 0 < countRewritable ts := by
  constructor
  · intro hne
    by_contra hc
    have h0 : countRewritable ts = 0 := by omega
    exact hne (by rw [processToks_id fs dir ts h0])
  · intro h hEq
    have hsplit := countP_rewritable_split ts
    have hle1 : (renderToks ts).length ≤ (renderToks (passStat fs dir ts).1).length :=
      mapPass_len_le (applyStat fs dir) (applyStat_len_le fs dir) ts
    have hle2 : (renderToks (passStat fs dir ts).1).length ≤
        (renderToks (processToks fs dir ts).1).length :=
      mapPass_len_le (applyDyn fs dir) (applyDyn_len_le fs dir) _
    have hEqLen := congrArg List.length hEq
    by_cases h1 : 0 < ts.countP statRewritable
    · have hlt : (renderToks ts).length < (renderToks (passStat fs dir ts).1).length :=
        mapPass_len_lt (applyStat fs dir) statRewritable
          (applyStat_len_le fs dir) (applyStat_len_lt fs dir) ts h1
      omega
    · have h2 : 0 < ts.countP dynRewritable := by omega
      have h2b : 0 < ((passStat fs dir ts).1).countP dynRewritable :=
        (mapPass_countP_pres (applyStat fs dir) dynRewritable
          (applyStat_dynRewritable fs dir) ts).symm ▸ h2
      have hlt : (renderToks (passStat fs dir ts).1).length <
          (renderToks (processToks fs dir ts).1).length :=
        mapPass_len_lt (applyDyn fs dir) dynRewritable
          (applyDyn_len_le fs dir) (applyDyn_len_lt fs dir) _ h2b
      omega

theorem fix_imports_in_file_clean (fs : FS) (f : SrcFile) (hr : f.readErr = none)
    (hw : f.writeErr = none) :
    fix_imports_in_file fs f =
      if 0 < countRewritable f.toks
      then ⟨true, countRewritable f.toks, [], true⟩
      else ⟨false, 0, [], false⟩ := by
  unfold fix_imports_in_file
  rw [hr]
  dsimp only
  by_cases hc : 0 < countRewritable f.toks
  · rw [if_neg ((processToks_render_ne_iff fs f.dir f.toks).mpr hc), hw, if_pos hc,
      processToks_changes]
  · have h0 : countRewritable f.toks = 0 := by omega
    have heq : renderToks (processToks fs f.dir f.toks).1 = renderToks f.toks := by
      rw [processToks_id fs f.dir f.toks h0]
    rw [if_pos heq, if_neg hc]

theorem fix_imports_in_directory_clean_fold (fs : FS) :
    ∀ (files : List SrcFile) (init : Nat × Nat),
      (∀ f ∈ files, f.readErr = none ∧ f.writeErr = none) →
      files.foldl
        (fun acc f =>
          let r := fix_imports_in_file fs f
          if r.modified then (acc.1 + 1, acc.2 + r.changes) else acc) init =
      (init.1 + files.countP (fun f => countRewritable f.toks != 0),
       init.2 + (files.map (fun f => countRewritable f.toks)).sum) := by
  intro files
  induction files with
  | nil => intro init _; simp
  | cons f rest ih =>
    intro init h
    have hf := h f (List.mem_cons_self f rest)
    have hrest : ∀ g ∈ rest, g.readErr = none ∧ g.writeErr = none := by
      intro g hg
      exact h g (List.mem_cons_of_mem f hg)
    rw [List.foldl_cons]
    have hfile := fix_imports_in_file_clean fs f hf.1 hf.2
    by_cases hc : 0 < countRewritable f.toks
    · have hres : (let r := fix_imports_in_file fs f
          if r.modified then (init.1 + 1, init.2 + r.changes) else init) =
          (init.1 + 1, init.2 + countRewritable f.toks) := by
        rw [hfile, if_pos hc]
        rfl
      rw [hres, ih _ hrest]
      have hb : (countRewritable f.toks != 0) = true := by
        simp only [bne_iff_ne]
        omega
      rw [List.countP_cons, if_pos hb, List.map_cons, List.sum_cons]
      refine congrArg₂ Prod.mk (by omega) (by omega)
    · have h0 : countRewritable f.toks = 0 := by omega
      have hres : (let r := fix_imports_in_file fs f
          if r.modified then (init.1 + 1, init.2 + r.changes) else init) = init := by
        rw [hfile, if_neg hc]
        rfl
      rw [hres, ih _ hrest]
      have hb : (countRewritable f.toks != 0) = false := by
        simp only [bne_eq_false_iff_eq]
        omega
      rw [List.countP_cons, if_neg (by rw [hb]; exact Bool.false_ne_true),
        List.map_cons, List.sum_cons, h0]
      refine congrArg₂ Prod.mk rfl (by omega)

theorem fix_imports_in_directory_clean (fs : FS) (files : List SrcFile)
    (h : ∀ f ∈ files, f.readErr = none ∧ f.writeErr = none) :
    fix_imports_in_directory fs files =
      (files.countP (fun f => countRewritable f.toks != 0),
       (files.map (fun f => countRewritable f.toks)).sum) := by
  unfold fix_imports_in_directory
  rw [fix_imports_in_directory_clean_fold fs files (0, 0) h]
  simp

theorem main_model_fold_clean (fs : FS) :
    ∀ (dirs : List (Option (List SrcFile))) (init : Nat × Nat),
      (∀ d ∈ dirs, ∀ f ∈ d.getD [], f.readErr = none ∧ f.writeErr = none) →
      dirs.foldl
        (fun acc d =>
          match d with
          | none => acc
          | some files =>
            let r := fix_imports_in_directory fs files
            (acc.1 + r.1, acc.2 + r.2)) init =
      (init.1 + (dirs.map dirCount).sum, init.2 + (dirs.map dirTotal).sum) := by
  intro dirs
  induction dirs with
  | nil => intro init _; simp
  | cons d rest ih =>
    intro init h
    have hrest : ∀ d2 ∈ rest, ∀ f ∈ d2.getD [], f.readErr = none ∧ f.writeErr = none :=
      fun d2 hd2 => h d2 (List.mem_cons_of_mem d hd2)
    rw [List.foldl_cons]
    cases d with
    | none =>
      rw [ih _ hrest]
      simp [dirCount, dirTotal]
    | some files =>
      have hfiles : ∀ f ∈ files, f.readErr = none ∧ f.writeErr = none := by
        have hmem := h (some files) (List.mem_cons_self (some files) rest)
        simpa using hmem
      have hdir := fix_imports_in_directory_clean fs files hfiles
      have hstep : (match some files with
          | none => init
          | some files =>
            let r := fix_imports_in_directory fs files
            (init.1 + r.1, init.2 + r.2)) =
          (init.1 + dirCount (some files), init.2 + dirTotal (some files)) := by
        dsimp only
        rw [hdir]
        rfl
      rw [hstep, ih _ hrest]
      rw [List.map_cons, List.sum_cons, List.map_cons, List.sum_cons]
      refine congrArg₂ Prod.mk (by dsimp only; omega) (by dsimp only; omega)

/-- C3: with all per-file I/O succeeding, a directory run of N files of
which M end up containing at least one rewritable specifier reports
files-modified = M and total-changes = the sum of the per-file rewrite
counts, and `main` returns exit value 1 when the total number of modified
files across its directories is 0 and 0 when it is positive. -/
theorem run_totals_and_exit_status (fs : FS) (files : List SrcFile)
    (dirs : List (Option (List SrcFile)))
    (hf : ∀ f ∈ files, f.readErr = none ∧ f.writeErr = none)
    (hd : ∀ d ∈ dirs, ∀ f ∈ d.getD [], f.readErr = none ∧ f.writeErr = none) :
    fix_imports_in_directory fs files =
      (files.countP (fun f => countRewritable f.toks != 0),
       (files.map (fun f => countRewritable f.toks)).sum) ∧
    main_model fs dirs = (if (dirs.map dirCount).sum = 0 then 1 else 0) := by
  refine ⟨fix_imports_in_directory_clean fs files hf, ?_⟩
  unfold main_model
  rw [main_model_fold_clean fs dirs (0, 0) hd]
  dsimp only
  simp only [Nat.zero_add]
  by_cases hs : (dirs.map dirCount).sum = 0
  · rw [if_neg (by omega), if_pos hs]
  · rw [if_pos (by omega), if_neg hs]

theorem run_totals_and_exit_status_witness :
    fix_imports_in_directory exampleFS [exampleStatFile, exampleRawFile] =
      ([exampleStatFile, exampleRawFile].countP (fun f => countRewritable f.toks != 0),
       ([exampleStatFile, exampleRawFile].map (fun f => countRewritable f.toks)).sum) ∧
    main_model exampleFS [some [exampleStatFile, exampleRawFile], none] =
      (if ([some [exampleStatFile, exampleRawFile], none].map dirCount).sum = 0
       then 1 else 0) :=
  run_totals_and_exit_status exampleFS [exampleStatFile, exampleRawFile]
    [some [exampleStatFile, exampleRawFile], none] (by decide) (by decide)
